import Mathlib

/-!
Verification development for the `pdf2text` repository
(`poppler_and_pymupdf`: `extract_headings_from_toc_v3.py`, `add_headings.py`).

The Python source is shallowly embedded: Python `float` values (font sizes,
bounding-box coordinates, Jaccard scores) are modelled as rationals `ℚ`,
Python `set[str]` as `Finset String`, and fallible Python code (index errors,
division by zero) by an `Except PyErr` result.  Unicode NFKC normalisation is
modelled as the identity map: no property below depends on the particular
normalisation table, only on the equality / containment classification that
`normalise_lookup_text` induces, and on the ASCII inputs used in witnesses the
NFKC map is the identity.
-/

/-- Runtime errors of the embedded Python code. -/
inductive PyErr where
  | indexError : PyErr
  | zeroDivisionError : PyErr
  deriving Repr, DecidableEq

/-- Helper for `pySplit`: split a character list on whitespace runs,
`acc` holding the reversed current word. -/
def splitWsAux : List Char → List Char → List (List Char)
  | [], acc => if acc.isEmpty then [] else [acc.reverse]
  | c :: rest, acc =>
      if c.isWhitespace then
        if acc.isEmpty then splitWsAux rest []
        else acc.reverse :: splitWsAux rest []
      else splitWsAux rest (c :: acc)

/-- Python `str.split()` with no separator: split on whitespace runs,
yielding no empty tokens. -/
def pySplit (s : String) : List String :=
  (splitWsAux s.data []).map List.asString

/-- Python `str.lower()` (character-wise, over the string's data). -/
def pyLower (s : String) : String :=
  List.asString (s.data.map Char.toLower)

/-- Drop leading whitespace characters. -/
def dropWhileWs : List Char → List Char
  | [] => []
  | c :: t => if c.isWhitespace then dropWhileWs t else c :: t

/-- Python `str.strip()`: remove leading and trailing whitespace. -/
def pyStrip (s : String) : String :=
  List.asString ((dropWhileWs (dropWhileWs s.data.reverse).reverse))

/-- Whether `needle` occurs as a contiguous sublist of `hay`
(Python substring containment on the character sequences).
An empty needle occurs in everything, as in Python. -/
def containsSub (hay needle : List Char) : Bool :=
  needle.isPrefixOf hay ||
    match hay with
    | [] => false
    | _ :: t => containsSub t needle

/-- Python `needle in hay` for strings. -/
def strContains (hay needle : String) : Bool :=
  containsSub hay.data needle.data

/-- Helper for `splitlinesKeepends`: `acc` is the reversed current line. -/
def splitlinesAux : List Char → List Char → List (List Char)
  | [], acc => if acc.isEmpty then [] else [acc.reverse]
  | c :: rest, acc =>
      if c = '\n' then (acc.reverse ++ ['\n']) :: splitlinesAux rest []
      else splitlinesAux rest (c :: acc)

/-- Python `str.splitlines(keepends=True)`, restricted to the newline
character as line boundary (the model works over ASCII text). -/
def splitlinesKeepends (s : String) : List String :=
  (splitlinesAux s.data []).map List.asString

/-- Python list indexing `xs[i]`, with negative-index semantics;
`none` models an `IndexError`. -/
def pyGetIdx {α : Type} (xs : List α) (i : Int) : Option α :=
  if 0 ≤ i then xs[i.toNat]?
  else if (-i).toNat ≤ xs.length then xs[(xs.length - (-i).toNat)]? else none

/-- Python slice `xs[-k:]` (for `k = 0` this is `xs[0:]`, the whole list). -/
def pyLastSlice {α : Type} (xs : List α) (k : Nat) : List α :=
  if k = 0 then xs else xs.drop (xs.length - k)

/-- Python `statistics.mean` on a nonempty list of scores
(every call site below supplies at least one element). -/
def pyMean (l : List ℚ) : ℚ := l.sum / l.length

/-- Python `max(l)` for a nonempty list (call sites guarantee nonemptiness). -/
def pyMax : List ℚ → ℚ
  | [] => 0
  | [x] => x
  | x :: y :: t => max x (pyMax (y :: t))

/-- Python `l.index(v)`: index of the first occurrence of `v` in `l`. -/
def pyIndex : List ℚ → ℚ → Nat
  | [], _ => 0
  | x :: t, v => if x = v then 0 else pyIndex t v + 1

deriving instance DecidableEq for Except

/-- Effectful map over a list in the `Except` monad, mirroring a Python loop
that computes one result per element and aborts on the first exception. -/
def mapMExcept {α β : Type} (f : α → Except PyErr β) :
    List α → Except PyErr (List β)
  | [] => Except.ok []
  | a :: t =>
      match f a with
      | Except.error er => Except.error er
      | Except.ok b =>
          match mapMExcept f t with
          | Except.error er => Except.error er
          | Except.ok bs => Except.ok (b :: bs)

/-- Source `jaccard_sim` (`add_headings.py`): intersection size over union
size.  The Python body divides `len(intersection)` by `len(union)` with no
guard, so two empty sets raise `ZeroDivisionError`; the embedding returns
`Except.error PyErr.zeroDivisionError` there. -/
def jaccard_sim (set1 set2 : Finset String) : Except PyErr ℚ :=
  let intersection := set1 ∩ set2
  let union := set1 ∪ set2
  if union.card = 0 then Except.error PyErr.zeroDivisionError
  else Except.ok ((intersection.card : ℚ) / (union.card : ℚ))

/-! ## Stage A data model (`extract_headings_from_toc_v3.py`) -/

/-- One text span from the structured PDF rendering (text plus font size). -/
structure RawSpan where
  text : String
  size : ℚ
  deriving Repr, DecidableEq

/-- One line of spans inside a raw block. -/
structure RawLine where
  spans : List RawSpan
  deriving Repr, DecidableEq

/-- A bounding box `(x0, y0, x1, y1)`; only `y0` (the top-y, `bbox[1]` in the
source) is inspected by the resolver. -/
structure BBox where
  x0 : ℚ
  y0 : ℚ
  x1 : ℚ
  y1 : ℚ
  deriving Repr, DecidableEq

/-- A raw page block as delivered by `page.get_text("dict", sort=True)`:
a type discriminator (`0` = text block), a bounding box and lines of spans. -/
structure RawBlock where
  btype : Nat
  bbox : BBox
  lines : List RawLine
  deriving Repr, DecidableEq

/-- The `match_reason` literal values of the source dataclass. -/
inductive MatchReason where
  | singlePerfectMatch
  | largestFontPerfectMatch
  | approxMatchClosestToTarget
  | noMatch
  deriving Repr, DecidableEq

/-- A pymupdf `Point`. -/
structure Point where
  x : ℚ
  y : ℚ
  deriving Repr, DecidableEq

/-- The link data attached to a ToC entry: the link kind and the optional
destination point (`dest` models the source's `link_data.get("to")`; `to` is
reserved in Lean).  pymupdf `Point` instances are always truthy, so
`if destination_point:` in the source is exactly the `Option` presence
test. -/
structure LinkData where
  kind : Nat
  dest : Option Point
  deriving Repr, DecidableEq

/-- pymupdf constant `LINK_GOTO`. -/
def LINK_GOTO : Nat := 1

/-- The source dataclass `TableOfContentsEntry`, with its default field
values.  `heading_level` and `page_num` are Python ints. -/
structure TableOfContentsEntry where
  heading_level : Int
  text : String
  page_num : Int
  link_data : LinkData
  heading_found_in_text : Bool := false
  match_reason : Option MatchReason := none
  text_before : Option String := none
  matching_page_text : Option String := none
  text_after : Option String := none
  deriving Repr, DecidableEq

/-- Unicode NFKC normalisation, modelled as the identity map (see the file
header: no claim depends on the normalisation table, and on ASCII input NFKC
is the identity). -/
def nfkcNormalize (s : String) : String := s

/-- Source `normalise_lookup_text`: collapse whitespace runs to single
spaces, NFKC-normalise, lowercase, strip. -/
def normalise_lookup_text (input_text : String) : String :=
  pyStrip (pyLower (nfkcNormalize (String.intercalate " " (pySplit input_text))))

/-- A text block after the annotation loop of the source (lines 76-86):
its position among the page's text blocks, its bounding box, the maximum
span font size (starting from `0.0`) and the space-joined, stripped text. -/
structure AnnotBlock where
  block_index : Nat
  bbox : BBox
  max_font_size_in_block : ℚ
  full_block_text : String
  deriving Repr, DecidableEq

/-- All spans of a block, in line order then span order. -/
def blockSpans (b : RawBlock) : List RawSpan :=
  (b.lines.map RawLine.spans).flatten

/-- Maximum span font size in a block, `0.0` when there are no spans
(`max(span["size"], acc)` folded over an accumulator starting at `0.0`). -/
def maxFontSize (b : RawBlock) : ℚ :=
  (blockSpans b).foldl (fun acc s => max s.size acc) 0

/-- Source `full_block_text`: `" ".join(block_text_items).strip()`. -/
def fullBlockText (b : RawBlock) : String :=
  pyStrip (String.intercalate " " ((blockSpans b).map RawSpan.text))

/-- The annotation loop: keep only text blocks (`type == 0`), enumerate them
and attach the derived features. -/
def annotateBlocks (raw_blocks : List RawBlock) : List AnnotBlock :=
  ((raw_blocks.filter (fun b => b.btype == 0)).enum).map
    (fun p =>
      { block_index := p.1
        bbox := p.2.bbox
        max_font_size_in_block := maxFontSize p.2
        full_block_text := fullBlockText p.2 })

/-- Source `match_checks["toc_text_matches_exactly"]`. -/
def tocTextMatchesExactly (lookup : String) (b : AnnotBlock) : Bool :=
  normalise_lookup_text b.full_block_text == lookup

/-- Source `match_checks["contains_toc_text"]` (true when the block text is
exactly the lookup text or contains it as a substring). -/
def containsTocText (lookup : String) (b : AnnotBlock) : Bool :=
  tocTextMatchesExactly lookup b ||
    strContains (normalise_lookup_text b.full_block_text) lookup

/-- Python sort key `(-max_font_size_in_block, block_index)` compared
lexicographically: larger font first, then smaller index first. -/
def exactKeyLe (a b : AnnotBlock) : Bool :=
  decide (b.max_font_size_in_block < a.max_font_size_in_block ∨
    (a.max_font_size_in_block = b.max_font_size_in_block ∧
      a.block_index ≤ b.block_index))

/-- Python sort key `abs(b["bbox"][1] - target_y)`. -/
def proximityLe (target_y : ℚ) (a b : AnnotBlock) : Bool :=
  decide (|a.bbox.y0 - target_y| ≤ |b.bbox.y0 - target_y|)

/-- Placeholder block for `headD` on lists that are provably nonempty. -/
def defaultBlock : AnnotBlock :=
  { block_index := 0, bbox := ⟨0, 0, 0, 0⟩, max_font_size_in_block := 0
    full_block_text := "" }

/-- Lines 112-126 and 151-161 of the source (identical in both resolving
branches): mark the entry found, record the tier and the matched block text,
and copy the immediately preceding / following block text into
`text_before` / `text_after` when the matched block is not first / last. -/
def setResolved (blocks : List AnnotBlock) (matched_block : AnnotBlock)
    (reason : MatchReason) (toc_item : TableOfContentsEntry) :
    TableOfContentsEntry :=
  { toc_item with
    heading_found_in_text := true
    match_reason := some reason
    matching_page_text := some matched_block.full_block_text
    text_before :=
      if matched_block.block_index ≠ 0 then
        some ((blocks.getD (matched_block.block_index - 1)
          defaultBlock).full_block_text)
      else toc_item.text_before
    text_after :=
      if matched_block.block_index + 1 < blocks.length then
        some ((blocks.getD (matched_block.block_index + 1)
          defaultBlock).full_block_text)
      else toc_item.text_after }

/-- The body of the per-entry loop of `extract_headings_from_toc` (source
lines 71-165), acting on the raw blocks of the entry's target page. -/
def resolveEntry (raw_blocks : List RawBlock)
    (toc_item : TableOfContentsEntry) : TableOfContentsEntry :=
  let blocks := annotateBlocks raw_blocks
  let lookup := normalise_lookup_text toc_item.text
  let exact_match_blocks := blocks.filter (tocTextMatchesExactly lookup)
  if exact_match_blocks.isEmpty then
    let containing_blocks := blocks.filter (containsTocText lookup)
    if containing_blocks.isEmpty then
      { toc_item with match_reason := some MatchReason.noMatch }
    else
      let target_y : Option ℚ :=
        if toc_item.link_data.kind = LINK_GOTO then
          match toc_item.link_data.dest with
          | some p => some p.y
          | none => none
        else none
      let sorted :=
        match target_y with
        | some y => containing_blocks.mergeSort (proximityLe y)
        | none => containing_blocks
      setResolved blocks (sorted.headD defaultBlock)
        MatchReason.approxMatchClosestToTarget toc_item
  else
    let sorted := exact_match_blocks.mergeSort exactKeyLe
    let reason :=
      if exact_match_blocks.length = 1 then MatchReason.singlePerfectMatch
      else MatchReason.largestFontPerfectMatch
    setResolved blocks (sorted.headD defaultBlock) reason toc_item

/-- Source `extract_headings_from_toc`, with the document modelled as the
list of its pages' raw block lists.  `doc.load_page(page_num - 1)` uses
Python indexing (negative indices wrap; out of range raises). -/
def extract_headings_from_toc (pages : List (List RawBlock))
    (toc : List TableOfContentsEntry) :
    Except PyErr (List TableOfContentsEntry) :=
  mapMExcept (fun toc_item =>
    match pyGetIdx pages (toc_item.page_num - 1) with
    | none => Except.error PyErr.indexError
    | some page_blocks => Except.ok (resolveEntry page_blocks toc_item)) toc

/-! ## Stage B (`add_headings.py`) -/

/-- The three members of the source enum `TocItemStatus` (the distinct
`.value` strings are elided; the constructors stand for them). -/
inductive TocItemStatus where
  | success
  | failedTocItemNotFound
  | failedTocItemNotMatched
  deriving Repr, DecidableEq

/-- The repeated source idiom `[word for word in s.split() if word.strip()]`. -/
def wordsOf (s : String) : List String :=
  (pySplit s).filter (fun w => pyStrip w ≠ "")

/-- Source `enumerate`/filter building `potential_heading_locations`:
the indices of the lines that contain `toc_item.text` as a substring. -/
def potentialHeadingLocations (page_text_lines : List String) (t : String) :
    List Nat :=
  (page_text_lines.enum.filter (fun p => strContains p.2 t)).map Prod.fst

/-- The composite score of one candidate location (source lines 80-123):
the mean of the optional before-context score, the always-present self
score and the optional after-context score, each a Jaccard similarity of
word sets.  Any `ZeroDivisionError` inside `jaccard_sim` propagates. -/
def scoreLoc (page_text_lines : List String)
    (toc_item : TableOfContentsEntry) (loc : Nat) : Except PyErr ℚ := do
  let beforeScores : List ℚ ←
    match toc_item.text_before with
    | some tb =>
      if tb ≠ "" ∧ loc ≠ 0 then do
        let text_before_words := wordsOf (String.join (page_text_lines.take loc))
        let toc_before_words := wordsOf (pyStrip tb)
        let text_before_words :=
          pyLastSlice text_before_words toc_before_words.length
        let s ← jaccard_sim text_before_words.toFinset toc_before_words.toFinset
        pure [s]
      else pure []
    | none => pure []
  let text_words := wordsOf (page_text_lines.getD loc "")
  let toc_words := wordsOf toc_item.text
  let selfScore ← jaccard_sim text_words.toFinset toc_words.toFinset
  let afterScores : List ℚ ←
    match toc_item.text_after with
    | some ta =>
      if ta ≠ "" ∧ loc + 1 ≠ page_text_lines.length then do
        let text_after_words :=
          wordsOf (String.join (page_text_lines.drop (loc + 1)))
        let toc_after_words := wordsOf ta
        let text_after_words := text_after_words.take toc_after_words.length
        let s ← jaccard_sim text_after_words.toFinset toc_after_words.toFinset
        pure [s]
      else pure []
    | none => pure []
  pure (pyMean (beforeScores ++ [selfScore] ++ afterScores))

/-- The per-entry body of the `add_headings` loop.  Lines 53-76 of the
source give the two failure branches; lines 78-127 compute the candidate
scores, the maximal score, its first index and `heading_location`.  The
final `Except.ok` with status `success` embeds the success branch, whose
text is missing from the source file (it ends mid-function right after
computing `heading_location`); modelled from the spec, sections 4.5-4.6. -/
def processEntry (doc_text : List String)
    (toc_item : TableOfContentsEntry) :
    Except PyErr (TocItemStatus × Option Nat) :=
  if toc_item.heading_found_in_text = false then
    Except.ok (TocItemStatus.failedTocItemNotFound, none)
  else
    match pyGetIdx doc_text (toc_item.page_num - 1) with
    | none => Except.error PyErr.indexError
    | some page_text =>
      let page_text_lines := splitlinesKeepends page_text
      let locs := potentialHeadingLocations page_text_lines toc_item.text
      if locs.isEmpty then
        Except.ok (TocItemStatus.failedTocItemNotMatched, none)
      else
        match mapMExcept (scoreLoc page_text_lines toc_item) locs with
        | Except.error er => Except.error er
        | Except.ok scores =>
          let max_score := pyMax scores
          let max_score_idx := pyIndex scores max_score
          let heading_location := locs.getD max_score_idx 0
          Except.ok (TocItemStatus.success, some heading_location)

/-- One record of `process_report["per_toc_item"]`: the status merged with
all fields of the entry (`{"status": ...} | asdict(toc_item)`), plus the
located line index of the success branch (modelled from the spec's
`located_line_index`, the success branch being missing from the source). -/
structure EntryRecord where
  status : TocItemStatus
  located_line_index : Option Nat
  entry : TableOfContentsEntry
  deriving Repr, DecidableEq

/-- The mutable `process_report` dict: one counter per status value plus
the ordered per-entry records. -/
structure ProcessReport where
  success_count : Nat
  not_found_count : Nat
  not_matched_count : Nat
  per_toc_item : List EntryRecord
  deriving Repr, DecidableEq

/-- The initial report with all three counters at zero. -/
def emptyReport : ProcessReport := ⟨0, 0, 0, []⟩

/-- Source `process_report["status_counts"][...] += 1`. -/
def bumpCount (report : ProcessReport) (st : TocItemStatus) : ProcessReport :=
  match st with
  | TocItemStatus.success =>
      { report with success_count := report.success_count + 1 }
  | TocItemStatus.failedTocItemNotFound =>
      { report with not_found_count := report.not_found_count + 1 }
  | TocItemStatus.failedTocItemNotMatched =>
      { report with not_matched_count := report.not_matched_count + 1 }

/-- The `for toc_item in toc` loop of `add_headings`: per entry, bump the
status counter, append the detail record, and remember the located heading
of a successful entry as `(page_num, heading_level, line index)` for the
annotation step.  A Python exception inside an iteration aborts the whole
loop, which the `Except` bind models. -/
def addHeadingsLoop (doc_text : List String) :
    List TableOfContentsEntry → ProcessReport → List (Int × Int × Nat) →
    Except PyErr (ProcessReport × List (Int × Int × Nat))
  | [], report, succs => Except.ok (report, succs)
  | toc_item :: rest, report, succs =>
      match processEntry doc_text toc_item with
      | Except.error er => Except.error er
      | Except.ok r =>
      let report1 := bumpCount report r.1
      let report2 :=
        { report1 with
          per_toc_item := report1.per_toc_item ++ [⟨r.1, r.2, toc_item⟩] }
      let succs1 :=
        match r with
        | (TocItemStatus.success, some loc) =>
            succs ++ [(toc_item.page_num, toc_item.heading_level, loc)]
        | _ => succs
      addHeadingsLoop doc_text rest report2 succs1

/-- Modelled from the spec: a heading marker derived from the entry's
heading level (the annotation format is unspecified; the spec only says the
located line is annotated with a heading marker). -/
def headingMarker (level : Int) : String :=
  String.join (List.replicate level.toNat "#") ++ " "

/-- Modelled from the spec: prefix line `loc` of a page with the heading
marker of level `level`. -/
def annotateLine (page : String) (level : Int) (loc : Nat) : String :=
  String.join ((splitlinesKeepends page).enum.map
    (fun q => if q.1 = loc then headingMarker level ++ q.2 else q.2))

/-- Modelled from the spec: apply one successful entry's annotation to the
page it targets. -/
def applyAnnotation (doc_text : List String) (s : Int × Int × Nat) :
    List String :=
  doc_text.enum.map
    (fun q => if (q.1 : Int) = s.1 - 1 then annotateLine q.2 s.2.1 s.2.2
      else q.2)

/-- Modelled from the spec: the annotated whole-document text, pages joined
by the form-feed separators they were split on. -/
def annotate_doc_text (doc_text : List String)
    (succs : List (Int × Int × Nat)) : String :=
  String.intercalate "\x0c" (succs.foldl applyAnnotation doc_text)

/-- Source `add_headings`: run the loop over all entries, then (tail
modelled from the spec, the source file ending mid-function) return the
annotated document text paired with the process report. -/
def add_headings (doc_text : List String)
    (toc : List TableOfContentsEntry) :
    Except PyErr (String × ProcessReport) :=
  match addHeadingsLoop doc_text toc emptyReport [] with
  | Except.error er => Except.error er
  | Except.ok r => Except.ok (annotate_doc_text doc_text r.2, r.1)

/-! ## General lemmas about the helper functions -/

theorem mergeSort_ne_nil {α : Type} {le : α → α → Bool} {l : List α}
    (hl : l ≠ []) : l.mergeSort le ≠ [] := by
  intro h
  apply hl
  have hlen := @List.length_mergeSort _ le l
  rw [h] at hlen
  exact List.eq_nil_of_length_eq_zero (by simpa using hlen.symm)

theorem headD_mergeSort_mem {α : Type} {le : α → α → Bool} {l : List α}
    (hl : l ≠ []) (d : α) : (l.mergeSort le).headD d ∈ l := by
  cases hms : l.mergeSort le with
  | nil => exact absurd hms (mergeSort_ne_nil hl)
  | cons a t =>
    have ha : a ∈ l.mergeSort le := by
      rw [hms]; exact List.mem_cons_self a t
    simpa using List.mem_mergeSort.mp ha

theorem headD_mergeSort_le {α : Type} {le : α → α → Bool}
    (htrans : ∀ a b c, le a b → le b c → le a c)
    (htot : ∀ a b, le a b || le b a)
    {l : List α} (hl : l ≠ []) (d : α) {x : α} (hx : x ∈ l) :
    le ((l.mergeSort le).headD d) x = true := by
  have hsorted := List.sorted_mergeSort htrans htot l
  cases hms : l.mergeSort le with
  | nil => exact absurd hms (mergeSort_ne_nil hl)
  | cons a t =>
    rw [hms] at hsorted
    have hx2 : x ∈ a :: t := by
      rw [← hms]; exact List.mem_mergeSort.mpr hx
    simp only [hms, List.headD_cons]
    rcases List.mem_cons.mp hx2 with rfl | hxt
    · have := htot x x
      rcases Bool.or_eq_true_iff.mp this with h | h <;> exact h
    · exact (List.pairwise_cons.mp hsorted).1 x hxt

theorem pyMax_mem : ∀ (l : List ℚ), l ≠ [] → pyMax l ∈ l
  | [], h => absurd rfl h
  | [x], _ => by simp [pyMax]
  | x :: y :: t, _ => by
    rw [pyMax]
    rcases le_total x (pyMax (y :: t)) with h | h
    · rw [max_eq_right h]
      exact List.mem_cons_of_mem x (pyMax_mem (y :: t) (by simp))
    · rw [max_eq_left h]
      exact List.mem_cons_self x (y :: t)

theorem le_pyMax : ∀ (l : List ℚ) (x : ℚ), x ∈ l → x ≤ pyMax l
  | [], x, hx => by simp at hx
  | [x'], x, hx => by
    simp at hx
    simp [pyMax, hx]
  | x' :: y :: t, x, hx => by
    rw [pyMax]
    rcases List.mem_cons.mp hx with rfl | hx2
    · exact le_max_left x (pyMax (y :: t))
    · exact le_trans (le_pyMax (y :: t) x hx2) (le_max_right x' (pyMax (y :: t)))

theorem pyIndex_lt_length : ∀ (l : List ℚ) (v : ℚ), v ∈ l →
    pyIndex l v < l.length
  | [], v, hv => by simp at hv
  | x :: t, v, hv => by
    rw [pyIndex]
    by_cases h : x = v
    · simp [h]
    · rw [if_neg h]
      have hvt : v ∈ t := by
        rcases List.mem_cons.mp hv with rfl | hvt
        · exact absurd rfl h
        · exact hvt
      simpa using pyIndex_lt_length t v hvt

theorem getD_pyIndex : ∀ (l : List ℚ) (v : ℚ), v ∈ l →
    l.getD (pyIndex l v) 0 = v
  | [], v, hv => by simp at hv
  | x :: t, v, hv => by
    rw [pyIndex]
    by_cases h : x = v
    · simp [h]
    · rw [if_neg h]
      have hvt : v ∈ t := by
        rcases List.mem_cons.mp hv with rfl | hvt
        · exact absurd rfl h
        · exact hvt
      simpa using getD_pyIndex t v hvt

theorem pyIndex_first : ∀ (l : List ℚ) (v : ℚ) (j : Nat), j < pyIndex l v →
    l.getD j 0 ≠ v
  | [], v, j, h => by rw [pyIndex] at h; omega
  | x :: t, v, j, h => by
    rw [pyIndex] at h
    by_cases hx : x = v
    · rw [if_pos hx] at h; omega
    · rw [if_neg hx] at h
      cases j with
      | zero => simpa using hx
      | succ j =>
        simp only [List.getD_cons_succ]
        exact pyIndex_first t v j (by omega)

theorem mapMExcept_ok_forall₂ {α β : Type} {f : α → Except PyErr β} :
    ∀ {l : List α} {res : List β}, mapMExcept f l = Except.ok res →
    List.Forall₂ (fun a b => f a = Except.ok b) l res
  | [], res, h => by
    rw [mapMExcept] at h
    cases h
    exact List.Forall₂.nil
  | a :: t, res, h => by
    rw [mapMExcept] at h
    cases hfa : f a with
    | error er => rw [hfa] at h; cases h
    | ok b =>
      rw [hfa] at h
      cases hmt : mapMExcept f t with
      | error er => rw [hmt] at h; cases h
      | ok bs =>
        rw [hmt] at h
        cases h
        exact List.Forall₂.cons hfa (mapMExcept_ok_forall₂ hmt)

theorem mapMExcept_ok_length {α β : Type} {f : α → Except PyErr β}
    {l : List α} {res : List β} (h : mapMExcept f l = Except.ok res) :
    res.length = l.length :=
  (mapMExcept_ok_forall₂ h).length_eq.symm

theorem forall₂_getD {α β : Type} {R : α → β → Prop} :
    ∀ {l : List α} {res : List β}, List.Forall₂ R l res →
    ∀ (j : Nat), j < l.length → ∀ (dα : α) (dβ : β),
    R (l.getD j dα) (res.getD j dβ)
  | [], _, List.Forall₂.nil, j, hj, _, _ => by simp at hj
  | a :: t, b :: bs, List.Forall₂.cons hab htail, j, hj, dα, dβ => by
    cases j with
    | zero => simpa using hab
    | succ j =>
      simp only [List.getD_cons_succ]
      exact forall₂_getD htail j (by simpa using Nat.lt_of_succ_lt_succ hj) dα dβ

theorem getD_mem_of_lt {α : Type} {l : List α} {j : Nat}
    (h : j < l.length) (d : α) : l.getD j d ∈ l := by
  rw [List.getD_eq_getElem?_getD, List.getElem?_eq_getElem h]
  simp [List.getElem_mem]

theorem annotateBlocks_getElem_block_index (raw_blocks : List RawBlock)
    (i : Nat) (h : i < (annotateBlocks raw_blocks).length) :
    ((annotateBlocks raw_blocks).getD i defaultBlock).block_index = i := by
  rw [List.getD_eq_getElem?_getD, List.getElem?_eq_getElem h]
  simp only [Option.getD_some]
  unfold annotateBlocks at h ⊢
  rw [List.getElem_map]
  have hlen : i < ((raw_blocks.filter (fun b => b.btype == 0)).enum).length := by
    simpa using h
  simp [List.enum, List.getElem_enumFrom]

theorem mem_annotateBlocks_getD {raw_blocks : List RawBlock}
    {b : AnnotBlock} (hb : b ∈ annotateBlocks raw_blocks) :
    b.block_index < (annotateBlocks raw_blocks).length ∧
      (annotateBlocks raw_blocks).getD b.block_index defaultBlock = b := by
  rcases List.mem_iff_getElem.mp hb with ⟨i, hi, hget⟩
  have hidx : b.block_index = i := by
    rw [← hget]
    have h2 := annotateBlocks_getElem_block_index raw_blocks i hi
    rw [List.getD_eq_getElem?_getD, List.getElem?_eq_getElem hi] at h2
    simpa using h2
  constructor
  · rw [hidx]; exact hi
  · rw [hidx, List.getD_eq_getElem?_getD, List.getElem?_eq_getElem hi]
    simpa using hget

theorem exactKeyLe_trans : ∀ (a b c : AnnotBlock),
    exactKeyLe a b → exactKeyLe b c → exactKeyLe a c := by
  intro a b c hab hbc
  simp only [exactKeyLe, decide_eq_true_eq] at hab hbc ⊢
  rcases hab with h | ⟨h1, h2⟩ <;> rcases hbc with h3 | ⟨h4, h5⟩
  · exact Or.inl (lt_trans h3 h)
  · exact Or.inl (by rw [← h4]; exact h)
  · exact Or.inl (by rw [h1]; exact h3)
  · exact Or.inr ⟨h1.trans h4, le_trans h2 h5⟩

theorem exactKeyLe_total : ∀ (a b : AnnotBlock),
    exactKeyLe a b || exactKeyLe b a := by
  intro a b
  simp only [exactKeyLe, Bool.or_eq_true, decide_eq_true_eq]
  rcases lt_trichotomy a.max_font_size_in_block b.max_font_size_in_block with
    h | h | h
  · exact Or.inr (Or.inl h)
  · rcases Nat.le_total a.block_index b.block_index with h2 | h2
    · exact Or.inl (Or.inr ⟨h, h2⟩)
    · exact Or.inr (Or.inr ⟨h.symm, h2⟩)
  · exact Or.inl (Or.inl h)

theorem proximityLe_trans (y : ℚ) : ∀ (a b c : AnnotBlock),
    proximityLe y a b → proximityLe y b c → proximityLe y a c := by
  intro a b c hab hbc
  simp only [proximityLe, decide_eq_true_eq] at hab hbc ⊢
  exact le_trans hab hbc

theorem proximityLe_total (y : ℚ) : ∀ (a b : AnnotBlock),
    proximityLe y a b || proximityLe y b a := by
  intro a b
  simp only [proximityLe, Bool.or_eq_true, decide_eq_true_eq]
  exact le_total _ _

/-! ## Stage A structural lemmas -/

/-- Abbreviation for the exact-match block list of an entry on a page. -/
def exactBlocksOf (raw_blocks : List RawBlock) (e : TableOfContentsEntry) :
    List AnnotBlock :=
  (annotateBlocks raw_blocks).filter
    (tocTextMatchesExactly (normalise_lookup_text e.text))

/-- Abbreviation for the containing-match block list of an entry on a page. -/
def containingBlocksOf (raw_blocks : List RawBlock)
    (e : TableOfContentsEntry) : List AnnotBlock :=
  (annotateBlocks raw_blocks).filter
    (containsTocText (normalise_lookup_text e.text))

theorem resolveEntry_exact_eq (raw_blocks : List RawBlock)
    (e : TableOfContentsEntry) (hne : exactBlocksOf raw_blocks e ≠ []) :
    resolveEntry raw_blocks e =
      setResolved (annotateBlocks raw_blocks)
        (((exactBlocksOf raw_blocks e).mergeSort exactKeyLe).headD
          defaultBlock)
        (if (exactBlocksOf raw_blocks e).length = 1 then
          MatchReason.singlePerfectMatch
         else MatchReason.largestFontPerfectMatch) e := by
  unfold exactBlocksOf at *
  simp only [resolveEntry]
  rw [if_neg (by simpa using hne)]

theorem resolveEntry_containing_eq (raw_blocks : List RawBlock)
    (e : TableOfContentsEntry) (hex : exactBlocksOf raw_blocks e = [])
    (hne : containingBlocksOf raw_blocks e ≠ []) :
    resolveEntry raw_blocks e =
      setResolved (annotateBlocks raw_blocks)
        ((match (if e.link_data.kind = LINK_GOTO then
            (match e.link_data.dest with
             | some p => some p.y
             | none => none)
          else none) with
          | some y => (containingBlocksOf raw_blocks e).mergeSort
              (proximityLe y)
          | none => containingBlocksOf raw_blocks e).headD defaultBlock)
        MatchReason.approxMatchClosestToTarget e := by
  unfold exactBlocksOf at hex
  unfold containingBlocksOf at *
  simp only [resolveEntry]
  rw [if_pos (by simpa using hex), if_neg (by simpa using hne)]

theorem setResolved_fields (blocks : List AnnotBlock) (m : AnnotBlock)
    (reason : MatchReason) (e : TableOfContentsEntry) :
    (setResolved blocks m reason e).heading_found_in_text = true ∧
    (setResolved blocks m reason e).match_reason = some reason ∧
    (setResolved blocks m reason e).matching_page_text =
      some m.full_block_text := by
  exact ⟨rfl, rfl, rfl⟩

/-- C5: for every ToC entry with at least one block on its target page whose
normalized text equals the normalized title, Stage A selects among those
exact blocks one with the largest maximum font size, breaking font-size ties
by earliest block order, and sets tier `SINGLE_PERFECT_MATCH` if exactly one
exact block existed, else `LARGEST_FONT_PERFECT_MATCH`. -/
theorem stageA_exact_selection (raw_blocks : List RawBlock)
    (e : TableOfContentsEntry)
    (hne : exactBlocksOf raw_blocks e ≠ []) :
    ∃ m : AnnotBlock,
      m ∈ exactBlocksOf raw_blocks e ∧
      (resolveEntry raw_blocks e).heading_found_in_text = true ∧
      (resolveEntry raw_blocks e).matching_page_text =
        some m.full_block_text ∧
      (∀ b ∈ exactBlocksOf raw_blocks e,
        b.max_font_size_in_block ≤ m.max_font_size_in_block) ∧
      (∀ b ∈ exactBlocksOf raw_blocks e,
        b.max_font_size_in_block = m.max_font_size_in_block →
          m.block_index ≤ b.block_index) ∧
      (resolveEntry raw_blocks e).match_reason =
        some (if (exactBlocksOf raw_blocks e).length = 1 then
            MatchReason.singlePerfectMatch
          else MatchReason.largestFontPerfectMatch) := by
  have heq := resolveEntry_exact_eq raw_blocks e hne
  set m := ((exactBlocksOf raw_blocks e).mergeSort exactKeyLe).headD
    defaultBlock with hm
  refine ⟨m, headD_mergeSort_mem hne defaultBlock, ?_, ?_, ?_, ?_, ?_⟩
  · rw [heq]; rfl
  · rw [heq]; rfl
  · intro b hb
    have hle := headD_mergeSort_le exactKeyLe_trans exactKeyLe_total hne
      defaultBlock hb
    rw [← hm] at hle
    simp only [exactKeyLe, decide_eq_true_eq] at hle
    rcases hle with h | ⟨h1, _⟩
    · exact le_of_lt h
    · exact le_of_eq h1.symm
  · intro b hb hfeq
    have hle := headD_mergeSort_le exactKeyLe_trans exactKeyLe_total hne
      defaultBlock hb
    rw [← hm] at hle
    simp only [exactKeyLe, decide_eq_true_eq] at hle
    rcases hle with h | ⟨_, h2⟩
    · rw [hfeq] at h
      exact absurd h (lt_irrefl _)
    · exact h2
  · rw [heq]; rfl

/-- Witness for `stageA_exact_selection`: the spec's end-to-end scenario 1,
two blocks both reading "Introduction" with font sizes 10 and 18. -/
theorem stageA_exact_selection_witness :
    ∃ m : AnnotBlock,
      m ∈ exactBlocksOf
        [⟨0, ⟨0, 0, 0, 0⟩, [⟨[⟨"Introduction", 10⟩]⟩]⟩,
         ⟨0, ⟨0, 100, 0, 0⟩, [⟨[⟨"Introduction", 18⟩]⟩]⟩]
        { heading_level := 1, text := "Introduction", page_num := 1,
          link_data := ⟨0, none⟩ } ∧
      (resolveEntry
        [⟨0, ⟨0, 0, 0, 0⟩, [⟨[⟨"Introduction", 10⟩]⟩]⟩,
         ⟨0, ⟨0, 100, 0, 0⟩, [⟨[⟨"Introduction", 18⟩]⟩]⟩]
        { heading_level := 1, text := "Introduction", page_num := 1,
          link_data := ⟨0, none⟩ }).heading_found_in_text = true ∧
      (resolveEntry
        [⟨0, ⟨0, 0, 0, 0⟩, [⟨[⟨"Introduction", 10⟩]⟩]⟩,
         ⟨0, ⟨0, 100, 0, 0⟩, [⟨[⟨"Introduction", 18⟩]⟩]⟩]
        { heading_level := 1, text := "Introduction", page_num := 1,
          link_data := ⟨0, none⟩ }).matching_page_text =
        some m.full_block_text ∧
      (∀ b ∈ exactBlocksOf
          [⟨0, ⟨0, 0, 0, 0⟩, [⟨[⟨"Introduction", 10⟩]⟩]⟩,
           ⟨0, ⟨0, 100, 0, 0⟩, [⟨[⟨"Introduction", 18⟩]⟩]⟩]
          { heading_level := 1, text := "Introduction", page_num := 1,
            link_data := ⟨0, none⟩ },
        b.max_font_size_in_block ≤ m.max_font_size_in_block) ∧
      (∀ b ∈ exactBlocksOf
          [⟨0, ⟨0, 0, 0, 0⟩, [⟨[⟨"Introduction", 10⟩]⟩]⟩,
           ⟨0, ⟨0, 100, 0, 0⟩, [⟨[⟨"Introduction", 18⟩]⟩]⟩]
          { heading_level := 1, text := "Introduction", page_num := 1,
            link_data := ⟨0, none⟩ },
        b.max_font_size_in_block = m.max_font_size_in_block →
          m.block_index ≤ b.block_index) ∧
      (resolveEntry
        [⟨0, ⟨0, 0, 0, 0⟩, [⟨[⟨"Introduction", 10⟩]⟩]⟩,
         ⟨0, ⟨0, 100, 0, 0⟩, [⟨[⟨"Introduction", 18⟩]⟩]⟩]
        { heading_level := 1, text := "Introduction", page_num := 1,
          link_data := ⟨0, none⟩ }).match_reason =
        some (if (exactBlocksOf
            [⟨0, ⟨0, 0, 0, 0⟩, [⟨[⟨"Introduction", 10⟩]⟩]⟩,
             ⟨0, ⟨0, 100, 0, 0⟩, [⟨[⟨"Introduction", 18⟩]⟩]⟩]
            { heading_level := 1, text := "Introduction", page_num := 1,
              link_data := ⟨0, none⟩ }).length = 1 then
            MatchReason.singlePerfectMatch
          else MatchReason.largestFontPerfectMatch) :=
  stageA_exact_selection _ _ (by decide)

theorem headD_mem {α : Type} {l : List α} (hl : l ≠ []) (d : α) :
    l.headD d ∈ l := by
  cases l with
  | nil => exact absurd rfl hl
  | cons a t => simp

theorem resolveEntry_noMatch_eq (raw_blocks : List RawBlock)
    (e : TableOfContentsEntry) (hex : exactBlocksOf raw_blocks e = [])
    (hcon : containingBlocksOf raw_blocks e = []) :
    resolveEntry raw_blocks e =
      { e with match_reason := some MatchReason.noMatch } := by
  unfold exactBlocksOf at hex
  unfold containingBlocksOf at hcon
  simp only [resolveEntry]
  rw [if_pos (by simpa using hex), if_pos (by simpa using hcon)]

theorem resolveEntry_resolved_form (raw_blocks : List RawBlock)
    (e : TableOfContentsEntry)
    (hfound : e.heading_found_in_text = false)
    (hres : (resolveEntry raw_blocks e).heading_found_in_text = true) :
    ∃ m ∈ annotateBlocks raw_blocks, ∃ reason : MatchReason,
      resolveEntry raw_blocks e =
        setResolved (annotateBlocks raw_blocks) m reason e := by
  by_cases hex : exactBlocksOf raw_blocks e = []
  · by_cases hcon : containingBlocksOf raw_blocks e = []
    · exfalso
      rw [resolveEntry_noMatch_eq raw_blocks e hex hcon] at hres
      simp only at hres
      rw [hfound] at hres
      cases hres
    · have heq := resolveEntry_containing_eq raw_blocks e hex hcon
      cases hty : (if e.link_data.kind = LINK_GOTO then
          (match e.link_data.dest with
           | some p => some p.y
           | none => none)
        else none) with
      | some y =>
        rw [hty] at heq
        exact ⟨_, List.mem_of_mem_filter
          (headD_mergeSort_mem hcon defaultBlock),
          MatchReason.approxMatchClosestToTarget, heq⟩
      | none =>
        rw [hty] at heq
        exact ⟨_, List.mem_of_mem_filter (headD_mem hcon defaultBlock),
          MatchReason.approxMatchClosestToTarget, heq⟩
  · have heq := resolveEntry_exact_eq raw_blocks e hex
    exact ⟨_, List.mem_of_mem_filter (headD_mergeSort_mem hex defaultBlock),
      _, heq⟩

/-- C1 (amended): when Stage A finds no exact block but at least one
containing block, the entry is always resolved with tier
`APPROX_MATCH_CLOSEST_TO_TARGET`; with a goto destination the selected
containing block has minimal distance of its top-y to the target
y-coordinate, and without one the first containing block in block order is
selected (the source takes `containing_blocks[0]` unconditionally). -/
theorem stageA_containing_fallback (raw_blocks : List RawBlock)
    (e : TableOfContentsEntry)
    (hex : exactBlocksOf raw_blocks e = [])
    (hne : containingBlocksOf raw_blocks e ≠ []) :
    (resolveEntry raw_blocks e).heading_found_in_text = true ∧
    (resolveEntry raw_blocks e).match_reason =
      some MatchReason.approxMatchClosestToTarget ∧
    (∀ p : Point, e.link_data.kind = LINK_GOTO →
      e.link_data.dest = some p →
      ∃ m ∈ containingBlocksOf raw_blocks e,
        (resolveEntry raw_blocks e).matching_page_text =
          some m.full_block_text ∧
        ∀ b ∈ containingBlocksOf raw_blocks e,
          |m.bbox.y0 - p.y| ≤ |b.bbox.y0 - p.y|) ∧
    ((e.link_data.kind ≠ LINK_GOTO ∨ e.link_data.dest = none) →
      (resolveEntry raw_blocks e).matching_page_text =
        some ((containingBlocksOf raw_blocks e).headD
          defaultBlock).full_block_text) := by
  have heq := resolveEntry_containing_eq raw_blocks e hex hne
  refine ⟨?_, ?_, ?_, ?_⟩
  · rw [heq]; rfl
  · rw [heq]; rfl
  · intro p hk hd
    rw [hk, hd] at heq
    rw [if_pos rfl] at heq
    refine ⟨((containingBlocksOf raw_blocks e).mergeSort
      (proximityLe p.y)).headD defaultBlock,
      headD_mergeSort_mem hne defaultBlock, ?_, ?_⟩
    · rw [heq]; rfl
    · intro b hb
      have hle := headD_mergeSort_le (proximityLe_trans p.y)
        (proximityLe_total p.y) hne defaultBlock hb
      simpa [proximityLe, decide_eq_true_eq] using hle
  · intro hcase
    have hty : (if e.link_data.kind = LINK_GOTO then
        (match e.link_data.dest with
         | some p => some p.y
         | none => none)
      else none) = (none : Option ℚ) := by
      rcases hcase with hk | hd
      · rw [if_neg hk]
      · rw [hd]
        split <;> rfl
    rw [hty] at heq
    rw [heq]
    rfl

/-- A page with two containing blocks and no exact block, for an entry whose
link is not a goto link (`kind = 0`, no destination point). -/
def c1raw : List RawBlock :=
  [⟨0, ⟨0, 100, 0, 0⟩, [⟨[⟨"See Chapter 5 for details", 10⟩]⟩]⟩,
   ⟨0, ⟨0, 310, 0, 0⟩, [⟨[⟨"also Chapter 5 here", 10⟩]⟩]⟩]

/-- A ToC entry pointing at `c1raw` with no goto destination. -/
def c1entry : TableOfContentsEntry :=
  { heading_level := 1, text := "Chapter 5", page_num := 1,
    link_data := ⟨0, none⟩ }

/-- Counterexample to C1 as stated: with containing blocks but no goto
y-coordinate the source does NOT leave the entry unresolved with tier none;
it resolves it to the first containing block with tier
`APPROX_MATCH_CLOSEST_TO_TARGET`. -/
theorem stageA_no_goto_still_resolves :
    exactBlocksOf c1raw c1entry = [] ∧
    containingBlocksOf c1raw c1entry ≠ [] ∧
    c1entry.link_data.kind ≠ LINK_GOTO ∧
    c1entry.link_data.dest = none ∧
    (resolveEntry c1raw c1entry).heading_found_in_text = true ∧
    (resolveEntry c1raw c1entry).match_reason =
      some MatchReason.approxMatchClosestToTarget ∧
    (resolveEntry c1raw c1entry).matching_page_text =
      some "See Chapter 5 for details" := by
  refine ⟨by decide, by decide, by decide, by decide, ?_, ?_, ?_⟩ <;> decide

/-- The same page as `c1raw`, for an entry whose link is a goto link with
destination y-coordinate 300 (the spec's end-to-end scenario 2). -/
def c1gentry : TableOfContentsEntry :=
  { heading_level := 1, text := "Chapter 5", page_num := 1,
    link_data := ⟨1, some ⟨0, 300⟩⟩ }

/-- Witness for `stageA_containing_fallback`: the spec's end-to-end
scenario 2 (goto y-coordinate 300, containing blocks at y = 100 and
y = 310). -/
theorem stageA_containing_fallback_witness :
    (resolveEntry c1raw c1gentry).heading_found_in_text = true ∧
    (resolveEntry c1raw c1gentry).match_reason =
      some MatchReason.approxMatchClosestToTarget ∧
    (∀ p : Point, c1gentry.link_data.kind = LINK_GOTO →
      c1gentry.link_data.dest = some p →
      ∃ m ∈ containingBlocksOf c1raw c1gentry,
        (resolveEntry c1raw c1gentry).matching_page_text =
          some m.full_block_text ∧
        ∀ b ∈ containingBlocksOf c1raw c1gentry,
          |m.bbox.y0 - p.y| ≤ |b.bbox.y0 - p.y|) ∧
    ((c1gentry.link_data.kind ≠ LINK_GOTO ∨
      c1gentry.link_data.dest = none) →
      (resolveEntry c1raw c1gentry).matching_page_text =
        some ((containingBlocksOf c1raw c1gentry).headD
          defaultBlock).full_block_text) :=
  stageA_containing_fallback c1raw c1gentry (by decide) (by decide)

/-- A page where the matched block (index 2) is preceded by a spanless
block (index 1, empty text) which is itself preceded by a non-empty block
(index 0, "Alpha"). -/
def c4raw : List RawBlock :=
  [⟨0, ⟨0, 0, 0, 0⟩, [⟨[⟨"Alpha", 10⟩]⟩]⟩,
   ⟨0, ⟨0, 20, 0, 0⟩, []⟩,
   ⟨0, ⟨0, 50, 0, 0⟩, [⟨[⟨"Chapter", 10⟩]⟩]⟩]

/-- A fresh ToC entry whose title exactly matches the third block of
`c4raw`. -/
def c4entry : TableOfContentsEntry :=
  { heading_level := 1, text := "Chapter", page_num := 1,
    link_data := ⟨0, none⟩ }

/-- Counterexample to C4 as stated: Stage A resolves the entry, the
immediately preceding block has empty trimmed text while a non-empty block
precedes it, yet `text_before` is set to the empty string (the immediately
preceding block's text), not to the nearest non-empty block's text. -/
theorem stageA_context_empty_not_skipped :
    (resolveEntry c4raw c4entry).heading_found_in_text = true ∧
    ((annotateBlocks c4raw).getD 1 defaultBlock).full_block_text = "" ∧
    ((annotateBlocks c4raw).getD 0 defaultBlock).full_block_text =
      "Alpha" ∧
    pyStrip "Alpha" ≠ "" ∧
    (resolveEntry c4raw c4entry).text_before = some "" := by
  have hexact : exactBlocksOf c4raw c4entry =
      [⟨2, ⟨0, 50, 0, 0⟩, 10, "Chapter"⟩] := by decide
  have heq := resolveEntry_exact_eq c4raw c4entry (by decide)
  rw [hexact, List.mergeSort_singleton] at heq
  refine ⟨?_, by decide, by decide, by decide, ?_⟩
  · rw [heq]; rfl
  · rw [heq]
    simp only [setResolved]
    decide

/-- C4 (amended): whenever Stage A resolves a fresh entry, `text_before` is
the full text of the immediately preceding block in the page's block index
(whether or not that text is empty) when the matched block is not first,
else unset; `text_after` symmetrically is the immediately following block's
text when the matched block is not last, else unset. -/
theorem stageA_context_adjacent (raw_blocks : List RawBlock)
    (e : TableOfContentsEntry)
    (hfound : e.heading_found_in_text = false)
    (hb : e.text_before = none) (ha : e.text_after = none)
    (hres : (resolveEntry raw_blocks e).heading_found_in_text = true) :
    ∃ m ∈ annotateBlocks raw_blocks,
      (resolveEntry raw_blocks e).matching_page_text =
        some m.full_block_text ∧
      (resolveEntry raw_blocks e).text_before =
        (if m.block_index ≠ 0 then
          some (((annotateBlocks raw_blocks).getD (m.block_index - 1)
            defaultBlock).full_block_text)
         else none) ∧
      (resolveEntry raw_blocks e).text_after =
        (if m.block_index + 1 < (annotateBlocks raw_blocks).length then
          some (((annotateBlocks raw_blocks).getD (m.block_index + 1)
            defaultBlock).full_block_text)
         else none) := by
  obtain ⟨m, hm, reason, heq⟩ :=
    resolveEntry_resolved_form raw_blocks e hfound hres
  refine ⟨m, hm, ?_, ?_, ?_⟩
  · rw [heq]; rfl
  · rw [heq]
    simp only [setResolved]
    rw [hb]
  · rw [heq]
    simp only [setResolved]
    rw [ha]

/-- Witness for `stageA_context_adjacent` at the concrete page `c4raw`. -/
theorem stageA_context_adjacent_witness :
    ∃ m ∈ annotateBlocks c4raw,
      (resolveEntry c4raw c4entry).matching_page_text =
        some m.full_block_text ∧
      (resolveEntry c4raw c4entry).text_before =
        (if m.block_index ≠ 0 then
          some (((annotateBlocks c4raw).getD (m.block_index - 1)
            defaultBlock).full_block_text)
         else none) ∧
      (resolveEntry c4raw c4entry).text_after =
        (if m.block_index + 1 < (annotateBlocks c4raw).length then
          some (((annotateBlocks c4raw).getD (m.block_index + 1)
            defaultBlock).full_block_text)
         else none) :=
  stageA_context_adjacent c4raw c4entry (by decide) (by decide) (by decide)
    (by decide)

/-! ## Stage B lemmas and theorems -/

theorem mem_map_fst_filter_enumFrom_ge {α : Type} (p : Nat × α → Bool) :
    ∀ (n : Nat) (l : List α) (k : Nat),
      k ∈ ((List.enumFrom n l).filter p).map Prod.fst → n ≤ k := by
  intro n l k hk
  rcases List.mem_map.mp hk with ⟨pr, hpr, hfst⟩
  have hmem : pr ∈ List.enumFrom n l := List.mem_filter.mp hpr |>.1
  have : (pr.1, pr.2) ∈ List.enumFrom n l := by simpa using hmem
  have hle := (List.mk_mem_enumFrom_iff_le_and_getElem?_sub.mp this).1
  omega

theorem pairwise_lt_filter_enumFrom {α : Type} (p : Nat × α → Bool) :
    ∀ (n : Nat) (l : List α),
      (((List.enumFrom n l).filter p).map Prod.fst).Pairwise (· < ·)
  | _, [] => by simp
  | n, a :: t => by
    rw [List.enumFrom_cons, List.filter_cons]
    by_cases hpa : p (n, a) = true
    · rw [if_pos hpa, List.map_cons]
      refine List.Pairwise.cons ?_ (pairwise_lt_filter_enumFrom p (n + 1) t)
      intro k hk
      have := mem_map_fst_filter_enumFrom_ge p (n + 1) t k hk
      omega
    · rw [if_neg hpa]
      exact pairwise_lt_filter_enumFrom p (n + 1) t

theorem potentialHeadingLocations_pairwise (lines : List String)
    (t : String) : (potentialHeadingLocations lines t).Pairwise (· < ·) := by
  unfold potentialHeadingLocations
  simp only [List.enum]
  exact pairwise_lt_filter_enumFrom _ 0 lines

theorem pairwise_lt_getD {l : List Nat} (hp : l.Pairwise (· < ·))
    {i j : Nat} (hi : i < l.length) (hj : j < l.length) (hij : i < j) :
    l.getD i 0 < l.getD j 0 := by
  have h := List.pairwise_iff_get.mp hp ⟨i, hi⟩ ⟨j, hj⟩
    (by simpa using hij)
  simpa [List.getD_eq_getElem?_getD, List.getElem?_eq_getElem hi,
    List.getElem?_eq_getElem hj, List.get_eq_getElem] using h

theorem potentialHeadingLocations_eq_nil {lines : List String} {t : String}
    (h : ∀ line ∈ lines, strContains line t = false) :
    potentialHeadingLocations lines t = [] := by
  unfold potentialHeadingLocations
  rw [List.map_eq_nil_iff, List.filter_eq_nil_iff]
  intro pr hpr
  have h2 : lines[pr.1]? = some pr.2 := by
    have : (pr.1, pr.2) ∈ lines.enum := by simpa using hpr
    exact List.mk_mem_enum_iff_getElem?.mp this
  have h3 : pr.2 ∈ lines := List.getElem?_mem h2
  simp [h pr.2 h3]

/-- C7: Stage B never runs for an entry unresolved by Stage A
(`heading_found_in_text = false`): for every document text whatsoever the
per-entry outcome is immediately `FAILED_TOC_ITEM_NOT_FOUND`, with no page
access and no line matching. -/
theorem stageB_skips_unresolved (e : TableOfContentsEntry)
    (h : e.heading_found_in_text = false) :
    ∀ doc_text : List String,
      processEntry doc_text e =
        Except.ok (TocItemStatus.failedTocItemNotFound, none) := by
  intro doc_text
  unfold processEntry
  rw [if_pos h]

/-- A fresh, unresolved sample entry. -/
def sampleEntry : TableOfContentsEntry :=
  { heading_level := 1, text := "Chapter 5", page_num := 1,
    link_data := ⟨0, none⟩ }

/-- Witness for `stageB_skips_unresolved`. -/
theorem stageB_skips_unresolved_witness :
    sampleEntry.heading_found_in_text = false ∧
    processEntry ["Summary\nChapter 5\n"] sampleEntry =
      Except.ok (TocItemStatus.failedTocItemNotFound, none) :=
  ⟨by decide, stageB_skips_unresolved sampleEntry (by decide)
    ["Summary\nChapter 5\n"]⟩

/-- C8: for a Stage-A-resolved entry whose target page text has no line
containing the raw title as a substring, Stage B's outcome is
`FAILED_TOC_ITEM_NOT_MATCHED` (and in particular never success). -/
theorem stageB_no_candidate_unmatched (doc_text : List String)
    (e : TableOfContentsEntry) (page_text : String)
    (hfound : e.heading_found_in_text = true)
    (hpage : pyGetIdx doc_text (e.page_num - 1) = some page_text)
    (hnoline : ∀ line ∈ splitlinesKeepends page_text,
      strContains line e.text = false) :
    processEntry doc_text e =
      Except.ok (TocItemStatus.failedTocItemNotMatched, none) := by
  have hempty := potentialHeadingLocations_eq_nil hnoline
  unfold processEntry
  rw [if_neg (by rw [hfound]; simp), hpage]
  simp only [hempty, List.isEmpty_nil, if_pos]

/-- A sample entry marked resolved by Stage A. -/
def resolvedEntry : TableOfContentsEntry :=
  { heading_level := 1, text := "Chapter 5", page_num := 1,
    link_data := ⟨0, none⟩, heading_found_in_text := true }

/-- Witness for `stageB_no_candidate_unmatched`: a page whose only line
does not contain the title. -/
theorem stageB_no_candidate_unmatched_witness :
    resolvedEntry.heading_found_in_text = true ∧
    pyGetIdx ["Nothing here\n"] (resolvedEntry.page_num - 1) =
      some "Nothing here\n" ∧
    (∀ line ∈ splitlinesKeepends "Nothing here\n",
      strContains line resolvedEntry.text = false) ∧
    processEntry ["Nothing here\n"] resolvedEntry =
      Except.ok (TocItemStatus.failedTocItemNotMatched, none) :=
  ⟨by decide, by decide, by decide,
    stageB_no_candidate_unmatched ["Nothing here\n"] resolvedEntry
      "Nothing here\n" (by decide) (by decide) (by decide)⟩

/-- C3: evaluating the source `jaccard_sim` at two empty token sets: the
body divides by the union's size with no special case, so instead of the
spec-mandated 0.0 the call raises `ZeroDivisionError`. -/
theorem jaccard_sim_empty_empty_raises :
    jaccard_sim ∅ ∅ = Except.error PyErr.zeroDivisionError := by decide

/-- A resolved entry whose `page_num` (2) exceeds a one-page document. -/
def c10entry : TableOfContentsEntry :=
  { heading_level := 1, text := "Chapter 5", page_num := 2,
    link_data := ⟨0, none⟩, heading_found_in_text := true }

/-- C10: `add_headings` reads the page by unchecked index `page_num - 1`,
so a resolved entry whose page number exceeds the page count makes the
whole call fail with an index error instead of recording a per-entry
failure outcome. -/
theorem add_headings_page_out_of_range :
    c10entry.heading_found_in_text = true ∧
    c10entry.page_num = 2 ∧
    (["only page\n"] : List String).length = 1 ∧
    add_headings ["only page\n"] [c10entry] =
      Except.error PyErr.indexError := by decide

/-- A degenerate Stage-A-resolvable entry: an empty title (as produced by
an exact match against a spanless block) targeting a page whose only line
is a bare newline. -/
def degenerateEntry : TableOfContentsEntry :=
  { heading_level := 1, text := "", page_num := 1,
    link_data := ⟨0, none⟩, heading_found_in_text := true }

/-- Counterexample to C2 as stated: the degenerate entry satisfies the
claim's hypotheses (resolved, and the page has a candidate line containing
the raw title), yet Stage B does not produce a success outcome: the self
score compares two empty word sets and the whole call raises
`ZeroDivisionError`. -/
theorem stageB_degenerate_candidate_raises :
    degenerateEntry.heading_found_in_text = true ∧
    potentialHeadingLocations (splitlinesKeepends "\n")
      degenerateEntry.text ≠ [] ∧
    processEntry ["\n"] degenerateEntry =
      Except.error PyErr.zeroDivisionError := by decide

/-- C2 (amended): for every Stage-A-resolved ToC entry whose target page
text has at least one candidate line (a line containing the raw title as a
substring), provided the composite scoring of every candidate completes
without a division-by-zero error, Stage B produces outcome success at the
candidate line with the highest composite score, ties broken by the lowest
line index.  (The success outcome itself is the part of `add_headings`
missing from the source, modelled from the spec.) -/
theorem stageB_selects_best_candidate (doc_text : List String)
    (e : TableOfContentsEntry) (page_text : String) (scores : List ℚ)
    (hfound : e.heading_found_in_text = true)
    (hpage : pyGetIdx doc_text (e.page_num - 1) = some page_text)
    (hne : potentialHeadingLocations (splitlinesKeepends page_text)
      e.text ≠ [])
    (hscores : mapMExcept (scoreLoc (splitlinesKeepends page_text) e)
      (potentialHeadingLocations (splitlinesKeepends page_text) e.text) =
      Except.ok scores) :
    ∃ loc s,
      processEntry doc_text e =
        Except.ok (TocItemStatus.success, some loc) ∧
      loc ∈ potentialHeadingLocations (splitlinesKeepends page_text)
        e.text ∧
      scoreLoc (splitlinesKeepends page_text) e loc = Except.ok s ∧
      (∀ loc2 s2,
        loc2 ∈ potentialHeadingLocations (splitlinesKeepends page_text)
          e.text →
        scoreLoc (splitlinesKeepends page_text) e loc2 = Except.ok s2 →
        s2 ≤ s) ∧
      (∀ loc2 s2,
        loc2 ∈ potentialHeadingLocations (splitlinesKeepends page_text)
          e.text →
        scoreLoc (splitlinesKeepends page_text) e loc2 = Except.ok s2 →
        s2 = s → loc ≤ loc2) := by
  set lines := splitlinesKeepends page_text with hlines
  set locs := potentialHeadingLocations lines e.text with hlocs
  have hf2 := mapMExcept_ok_forall₂ hscores
  have hlen : scores.length = locs.length := mapMExcept_ok_length hscores
  have hsne : scores ≠ [] := by
    intro h0
    rw [h0] at hlen
    exact hne (List.eq_nil_of_length_eq_zero hlen.symm)
  have hmaxmem : pyMax scores ∈ scores := pyMax_mem scores hsne
  set k0 := pyIndex scores (pyMax scores) with hk0
  have hk0s : k0 < scores.length := pyIndex_lt_length scores _ hmaxmem
  have hk0l : k0 < locs.length := by omega
  have hgetk0 : scores.getD k0 0 = pyMax scores :=
    getD_pyIndex scores _ hmaxmem
  have hscorek0 : scoreLoc lines e (locs.getD k0 0) =
      Except.ok (scores.getD k0 0) :=
    forall₂_getD hf2 k0 hk0l 0 0
  have hproc : processEntry doc_text e =
      Except.ok (TocItemStatus.success, some (locs.getD k0 0)) := by
    unfold processEntry
    rw [if_neg (by rw [hfound]; simp)]
    simp only [hpage]
    rw [if_neg (by simpa using hne)]
    simp only [← hlines, ← hlocs, hscores]
  refine ⟨locs.getD k0 0, scores.getD k0 0, hproc,
    getD_mem_of_lt hk0l 0, hscorek0, ?_, ?_⟩
  · intro loc2 s2 hmem2 hsc2
    rcases List.mem_iff_getElem.mp hmem2 with ⟨j, hj, hjeq⟩
    have hgj : locs.getD j 0 = loc2 := by
      rw [List.getD_eq_getElem?_getD, List.getElem?_eq_getElem hj]
      simpa using hjeq
    have hscj : scoreLoc lines e (locs.getD j 0) =
        Except.ok (scores.getD j 0) := forall₂_getD hf2 j hj 0 0
    rw [hgj, hsc2] at hscj
    have hs2 : s2 = scores.getD j 0 := by
      injection hscj with h2
    rw [hs2, hgetk0]
    exact le_pyMax scores _ (getD_mem_of_lt (by omega) 0)
  · intro loc2 s2 hmem2 hsc2 hs2max
    rcases List.mem_iff_getElem.mp hmem2 with ⟨j, hj, hjeq⟩
    have hgj : locs.getD j 0 = loc2 := by
      rw [List.getD_eq_getElem?_getD, List.getElem?_eq_getElem hj]
      simpa using hjeq
    have hscj : scoreLoc lines e (locs.getD j 0) =
        Except.ok (scores.getD j 0) := forall₂_getD hf2 j hj 0 0
    rw [hgj, hsc2] at hscj
    have hs2 : s2 = scores.getD j 0 := by
      injection hscj with h2
    have hjmax : scores.getD j 0 = pyMax scores := by
      rw [← hs2, hs2max, hgetk0]
    have hk0j : ¬(j < k0) := fun hlt =>
      pyIndex_first scores (pyMax scores) j hlt hjmax
    have hploc : locs.Pairwise (· < ·) := by
      rw [hlocs]
      exact potentialHeadingLocations_pairwise lines e.text
    rcases Nat.lt_or_ge k0 j with hlt | hge
    · have hlt2 := pairwise_lt_getD hploc hk0l hj hlt
      rw [hgj] at hlt2
      exact le_of_lt hlt2
    · have hk0eq : k0 = j := by omega
      rw [hk0eq, hgj]

/-- A resolved entry with a one-word title and no context fields, targeting
the single page "Intro\nChapter\nEnd". -/
def cwEntry : TableOfContentsEntry :=
  { heading_level := 1, text := "Chapter", page_num := 1,
    link_data := ⟨0, none⟩, heading_found_in_text := true }

/-- Witness for `stageB_selects_best_candidate` at a concrete page with a
single candidate line of composite score 1. -/
theorem stageB_selects_best_candidate_witness :
    ∃ loc s,
      processEntry ["Intro\nChapter\nEnd"] cwEntry =
        Except.ok (TocItemStatus.success, some loc) ∧
      loc ∈ potentialHeadingLocations
        (splitlinesKeepends "Intro\nChapter\nEnd") cwEntry.text ∧
      scoreLoc (splitlinesKeepends "Intro\nChapter\nEnd") cwEntry loc =
        Except.ok s ∧
      (∀ loc2 s2,
        loc2 ∈ potentialHeadingLocations
          (splitlinesKeepends "Intro\nChapter\nEnd") cwEntry.text →
        scoreLoc (splitlinesKeepends "Intro\nChapter\nEnd") cwEntry loc2 =
          Except.ok s2 →
        s2 ≤ s) ∧
      (∀ loc2 s2,
        loc2 ∈ potentialHeadingLocations
          (splitlinesKeepends "Intro\nChapter\nEnd") cwEntry.text →
        scoreLoc (splitlinesKeepends "Intro\nChapter\nEnd") cwEntry loc2 =
          Except.ok s2 →
        s2 = s → loc ≤ loc2) :=
  stageB_selects_best_candidate ["Intro\nChapter\nEnd"] cwEntry
    "Intro\nChapter\nEnd" [1] (by decide) (by decide) (by decide)
    (by
      have hlocs : potentialHeadingLocations
          (splitlinesKeepends "Intro\nChapter\nEnd") cwEntry.text = [1] := by
        decide
      have hscore : scoreLoc (splitlinesKeepends "Intro\nChapter\nEnd")
          cwEntry 1 = Except.ok 1 := by
        have h1 : scoreLoc (splitlinesKeepends "Intro\nChapter\nEnd")
            cwEntry 1 =
            Except.ok (pyMean [((1 : Nat) : ℚ) / ((1 : Nat) : ℚ)]) := rfl
        rw [h1]
        norm_num [pyMean]
      rw [hlocs]
      simp [mapMExcept, hscore])

/-! ## Report aggregation lemmas and theorems -/

theorem addHeadingsLoop_spec (doc_text : List String) :
    ∀ (toc : List TableOfContentsEntry) (report : ProcessReport)
      (succs : List (Int × Int × Nat)) (rep : ProcessReport)
      (sc : List (Int × Int × Nat)),
      addHeadingsLoop doc_text toc report succs = Except.ok (rep, sc) →
      ∃ tail : List EntryRecord,
        rep.per_toc_item = report.per_toc_item ++ tail ∧
        List.Forall₂ (fun e r => r.entry = e ∧
          processEntry doc_text e =
            Except.ok (r.status, r.located_line_index)) toc tail ∧
        rep.success_count = report.success_count +
          tail.countP (fun r => r.status == TocItemStatus.success) ∧
        rep.not_found_count = report.not_found_count +
          tail.countP
            (fun r => r.status == TocItemStatus.failedTocItemNotFound) ∧
        rep.not_matched_count = report.not_matched_count +
          tail.countP
            (fun r => r.status == TocItemStatus.failedTocItemNotMatched)
  | [], report, succs, rep, sc, h => by
    rw [addHeadingsLoop] at h
    cases h
    exact ⟨[], by simp, List.Forall₂.nil, by simp, by simp, by simp⟩
  | toc_item :: rest, report, succs, rep, sc, h => by
    rw [addHeadingsLoop] at h
    cases hpe : processEntry doc_text toc_item with
    | error er => rw [hpe] at h; cases h
    | ok r =>
      rw [hpe] at h
      obtain ⟨tail, hper, hfa, hsc, hnf, hnm⟩ :=
        addHeadingsLoop_spec doc_text rest _ _ rep sc h
      refine ⟨⟨r.1, r.2, toc_item⟩ :: tail, ?_, ?_, ?_, ?_, ?_⟩
      · rw [hper]
        cases r1 : r.1 <;> simp [bumpCount, r1]
      · exact List.Forall₂.cons ⟨rfl, hpe⟩ hfa
      · rw [hsc, List.countP_cons]
        cases r1 : r.1 <;> simp [bumpCount, r1]
        omega
      · rw [hnf, List.countP_cons]
        cases r1 : r.1 <;> simp [bumpCount, r1]
        omega
      · rw [hnm, List.countP_cons]
        cases r1 : r.1 <;> simp [bumpCount, r1]
        omega

theorem entryRecord_status_partition : ∀ (l : List EntryRecord),
    l.countP (fun r => r.status == TocItemStatus.success) +
    l.countP (fun r => r.status == TocItemStatus.failedTocItemNotFound) +
    l.countP (fun r => r.status == TocItemStatus.failedTocItemNotMatched) =
    l.length
  | [] => rfl
  | r :: t => by
    simp only [List.countP_cons]
    have ih := entryRecord_status_partition t
    cases hr : r.status <;> simp [hr] <;> omega

/-- C6: when `add_headings` completes, it returns the annotated document
text paired with a report whose per-entry records are in original ToC
order, each carrying the entry and its single terminal status, and whose
per-status counters equal the number of records with that status, the three
counters summing to the number of entries. -/
theorem add_headings_report (doc_text : List String)
    (toc : List TableOfContentsEntry) (txt : String) (rep : ProcessReport)
    (h : add_headings doc_text toc = Except.ok (txt, rep)) :
    List.Forall₂ (fun e r => r.entry = e ∧
      processEntry doc_text e = Except.ok (r.status, r.located_line_index))
      toc rep.per_toc_item ∧
    rep.per_toc_item.length = toc.length ∧
    rep.success_count =
      rep.per_toc_item.countP
        (fun r => r.status == TocItemStatus.success) ∧
    rep.not_found_count =
      rep.per_toc_item.countP
        (fun r => r.status == TocItemStatus.failedTocItemNotFound) ∧
    rep.not_matched_count =
      rep.per_toc_item.countP
        (fun r => r.status == TocItemStatus.failedTocItemNotMatched) ∧
    rep.success_count + rep.not_found_count + rep.not_matched_count =
      toc.length := by
  unfold add_headings at h
  cases hl : addHeadingsLoop doc_text toc emptyReport [] with
  | error er => rw [hl] at h; cases h
  | ok r2 =>
    rw [hl] at h
    cases h
    obtain ⟨tail, hper, hfa, hsc, hnf, hnm⟩ :=
      addHeadingsLoop_spec doc_text toc emptyReport [] r2.1 r2.2
        (by rw [hl])
    have htail : r2.1.per_toc_item = tail := by simpa [emptyReport] using hper
    have hlen := hfa.length_eq
    refine ⟨by rw [htail]; exact hfa, by rw [htail]; omega, ?_, ?_, ?_, ?_⟩
    · rw [htail, hsc]; simp [emptyReport]
    · rw [htail, hnf]; simp [emptyReport]
    · rw [htail, hnm]; simp [emptyReport]
    · rw [hsc, hnf, hnm]
      have e1 : emptyReport.success_count = 0 := rfl
      have e2 : emptyReport.not_found_count = 0 := rfl
      have e3 : emptyReport.not_matched_count = 0 := rfl
      have hpart := entryRecord_status_partition tail
      omega

/-- The report produced for a single unresolved entry. -/
def c6rep : ProcessReport :=
  ⟨0, 1, 0, [⟨TocItemStatus.failedTocItemNotFound, none, sampleEntry⟩]⟩

/-- Witness for `add_headings_report` on a one-entry ToC. -/
theorem add_headings_report_witness :
    add_headings ["x\n"] [sampleEntry] = Except.ok ("x\n", c6rep) ∧
    (List.Forall₂ (fun e r => r.entry = e ∧
      processEntry ["x\n"] e = Except.ok (r.status, r.located_line_index))
      [sampleEntry] c6rep.per_toc_item ∧
    c6rep.per_toc_item.length = ([sampleEntry] :
      List TableOfContentsEntry).length ∧
    c6rep.success_count =
      c6rep.per_toc_item.countP
        (fun r => r.status == TocItemStatus.success) ∧
    c6rep.not_found_count =
      c6rep.per_toc_item.countP
        (fun r => r.status == TocItemStatus.failedTocItemNotFound) ∧
    c6rep.not_matched_count =
      c6rep.per_toc_item.countP
        (fun r => r.status == TocItemStatus.failedTocItemNotMatched) ∧
    c6rep.success_count + c6rep.not_found_count +
      c6rep.not_matched_count = ([sampleEntry] :
        List TableOfContentsEntry).length) :=
  ⟨by decide,
    add_headings_report ["x\n"] [sampleEntry] "x\n" c6rep (by decide)⟩

/-! ## Frame condition across the pipeline -/

theorem resolveEntry_preserves (raw_blocks : List RawBlock)
    (e : TableOfContentsEntry) :
    (resolveEntry raw_blocks e).heading_level = e.heading_level ∧
    (resolveEntry raw_blocks e).text = e.text ∧
    (resolveEntry raw_blocks e).page_num = e.page_num ∧
    (resolveEntry raw_blocks e).link_data = e.link_data := by
  simp only [resolveEntry, setResolved]
  repeat' split
  all_goals exact ⟨rfl, rfl, rfl, rfl⟩

/-- C9: across the whole pipeline, every ToC entry's declared
`heading_level`, `text` (title), `page_num` and `link_data` survive Stage A
unchanged, and Stage B's per-entry report records carry each Stage-A entry
verbatim (Stage B writes nothing back into the entries). -/
theorem pipeline_preserves_declared_fields (pages : List (List RawBlock))
    (toc toc2 : List TableOfContentsEntry)
    (h1 : extract_headings_from_toc pages toc = Except.ok toc2) :
    List.Forall₂ (fun e r =>
      r.heading_level = e.heading_level ∧ r.text = e.text ∧
      r.page_num = e.page_num ∧ r.link_data = e.link_data) toc toc2 ∧
    ∀ (doc_text : List String) (txt : String) (rep : ProcessReport),
      add_headings doc_text toc2 = Except.ok (txt, rep) →
      List.Forall₂ (fun e r => r.entry = e) toc2 rep.per_toc_item := by
  constructor
  · have hf2 := mapMExcept_ok_forall₂ h1
    refine hf2.imp ?_
    intro e r hr
    cases hpg : pyGetIdx pages (e.page_num - 1) with
    | none => rw [hpg] at hr; cases hr
    | some page_blocks =>
      rw [hpg] at hr
      have hre : r = resolveEntry page_blocks e := by
        injection hr with h2
        exact h2.symm
      rw [hre]
      exact resolveEntry_preserves page_blocks e
  · intro doc_text txt rep h2
    unfold add_headings at h2
    cases hl : addHeadingsLoop doc_text toc2 emptyReport [] with
    | error er => rw [hl] at h2; cases h2
    | ok r2 =>
      rw [hl] at h2
      cases h2
      obtain ⟨tail, hper, hfa, _, _, _⟩ :=
        addHeadingsLoop_spec doc_text toc2 emptyReport [] r2.1 r2.2
          (by rw [hl])
      have htail : r2.1.per_toc_item = tail := by
        simpa [emptyReport] using hper
      rw [htail]
      exact hfa.imp (fun e r hr => hr.1)

/-- The Stage-A output for `c1entry` on the one-page document `[c1raw]`. -/
def c9toc2 : List TableOfContentsEntry :=
  [{ c1entry with
      heading_found_in_text := true
      match_reason := some MatchReason.approxMatchClosestToTarget
      matching_page_text := some "See Chapter 5 for details"
      text_after := some "also Chapter 5 here" }]

/-- Witness for `pipeline_preserves_declared_fields` on a one-page,
one-entry document. -/
theorem pipeline_preserves_declared_fields_witness :
    List.Forall₂ (fun e r =>
      r.heading_level = e.heading_level ∧ r.text = e.text ∧
      r.page_num = e.page_num ∧ r.link_data = e.link_data)
      [c1entry] c9toc2 ∧
    ∀ (doc_text : List String) (txt : String) (rep : ProcessReport),
      add_headings doc_text c9toc2 = Except.ok (txt, rep) →
      List.Forall₂ (fun e r => r.entry = e) c9toc2 rep.per_toc_item :=
  pipeline_preserves_declared_fields [c1raw] [c1entry] c9toc2 (by decide)
